import Mathlib

/-!
# RSS aggregator (backend-go): relational store, feed poller, sessions, handlers

A shallow embedding of `backend-go`:

* `main.go`     : the three relations created by `createTables`, as lists of rows
                  together with the `SERIAL` sequences that number them;
* `rss.go`      : `FetchRSSFeeds`, the polling run;
* `auth.go`     : `Register`, `Login`, `AuthMiddlewareFunc`;
* `handlers.go` : `GetUserFromToken`, `GetUserID`, `GetFeeds`, `DeleteFeed`, `GetPosts`.

Conventions.  Go `int` and SQL `INTEGER` are `Int`; a nullable column or a Go pointer is an
`Option`; instants (`time.Time`, `TIMESTAMP`) are `Int`.  SQL statements are pure functions
on `DB`.  The only statement failures modelled are the ones the schema of `createTables`
can raise (`UNIQUE`, `REFERENCES`) and the rejection of a request-supplied feed id that
does not fit the `INTEGER` column it is compared with; connection failures are outside the
model, and stored values are taken to fit their column types.  Primary keys are only ever
drawn from the sequences, so a primary-key clash is not modelled.

The libraries the handlers call are described by what they return to the handlers:
`gofeed` through the result of `ParseURL`, `bcrypt` through two functions passed as
parameters, `encoding/json` on the two shapes the handlers use, and `jwt-go` (v3) through
`ParseWithClaims` and `SignedString`, with the MAC as a parameter.
-/

namespace RSSAggregator

/-! ## Schema (`createTables`, main.go) -/

/-- Row of `users (id SERIAL PRIMARY KEY, username TEXT UNIQUE NOT NULL, password TEXT NOT NULL)`. -/
structure UsersRow where
  id : Int
  username : String
  password : String
deriving DecidableEq, Repr

/-- Row of `feeds (id, user_id REFERENCES users ON DELETE CASCADE, name, url UNIQUE,
last_fetched TIMESTAMP)`. -/
structure FeedsRow where
  id : Int
  user_id : Option Int
  name : String
  url : String
  last_fetched : Option Int
deriving DecidableEq, Repr

/-- Row of `posts (id, feed_id REFERENCES feeds ON DELETE CASCADE, title, url UNIQUE,
published_at TIMESTAMP)`. -/
structure PostsRow where
  id : Int
  feed_id : Option Int
  title : String
  url : String
  published_at : Option Int
deriving DecidableEq, Repr

/-- Database state: the three relations in storage order and the next value of the
sequences behind `users.id` and `posts.id`. -/
structure DB where
  users : List UsersRow
  feeds : List FeedsRow
  posts : List PostsRow
  users_id_seq : Int
  posts_id_seq : Int
deriving DecidableEq, Repr

/-- The columns of a post other than its generated id. -/
def PostsRow.content (p : PostsRow) : Option Int × String × String × Option Int :=
  (p.feed_id, p.title, p.url, p.published_at)

/-- The `UNIQUE` constraint on `posts.url`. -/
def PostsUnique (db : DB) : Prop :=
  (db.posts.map PostsRow.url).Nodup

/-- The primary key of `feeds`. -/
def FeedIdsUnique (db : DB) : Prop :=
  (db.feeds.map FeedsRow.id).Nodup

/-! ## Feed poller (rss.go) -/

/-- The fields of `gofeed.Item` that `FetchRSSFeeds` reads. -/
structure Item where
  Title : String
  Link : String
  PublishedParsed : Option Int
deriving DecidableEq, Repr

/-- SQL `SELECT id FROM posts WHERE url = $1` followed by `Scan`: `true` when a row came back
(`err == nil`). -/
def postExists (db : DB) (url : String) : Bool :=
  decide (url ∈ db.posts.map PostsRow.url)

/-- SQL `INSERT INTO posts (feed_id, title, url, published_at) VALUES ($1, $2, $3, $4)`.
The id default takes the next sequence value before the constraints are checked, so a
rejected insert still advances the sequence.  The flag is `true` when the row was stored. -/
def insertPost (db : DB) (feedID : Int) (title url : String) (publishedAt : Option Int) :
    DB × Bool :=
  let db1 : DB := { db with posts_id_seq := db.posts_id_seq + 1 }
  if url ∈ db.posts.map PostsRow.url then (db1, false)
  else if feedID ∈ db.feeds.map FeedsRow.id then
    ({ db1 with posts := db.posts ++ [⟨db.posts_id_seq, some feedID, title, url, publishedAt⟩] },
      true)
  else (db1, false)

/-- Body of the loop over `feed.Items` (rss.go 46-68): skip when the URL is stored,
otherwise insert; an insert error is only logged. -/
def ingestItem (feedID : Int) (db : DB) (item : Item) : DB :=
  let publishedAt := item.PublishedParsed
  if postExists db item.Link then db
  else (insertPost db feedID item.Title item.Link publishedAt).1

/-- The loop `for _, item := range feed.Items`. -/
def ingestItems (feedID : Int) (db : DB) (items : List Item) : DB :=
  items.foldl (ingestItem feedID) db

/-- SQL `UPDATE feeds SET last_fetched = NOW() WHERE id = $1`. -/
def updateLastFetched (db : DB) (feedID : Int) (now : Int) : DB :=
  { db with feeds := db.feeds.map fun f =>
      if f.id = feedID then { f with last_fetched := some now } else f }

/-- Body of the loop over the feed rows (rss.go 23-71).  `ParseURL` is the result of
`fp.ParseURL(feedURL)` (`none` when it returns an error) and `NOW feedID` the clock reading
of the `UPDATE` issued for that feed. -/
def fetchFeed (ParseURL : String → Option (List Item)) (NOW : Int → Int) (db : DB)
    (row : Int × String) : DB :=
  match ParseURL row.2 with
  | none => db
  | some items => ingestItems row.1 (updateLastFetched db row.1 (NOW row.1)) items

/-- The loop `for rows.Next()` over a result of `SELECT id, url FROM feeds`. -/
def fetchLoop (ParseURL : String → Option (List Item)) (NOW : Int → Int)
    (rows : List (Int × String)) (db : DB) : DB :=
  rows.foldl (fetchFeed ParseURL NOW) db

/-- Go `FetchRSSFeeds` (rss.go 11-74): one polling run over every stored feed. -/
def FetchRSSFeeds (ParseURL : String → Option (List Item)) (NOW : Int → Int) (db : DB) : DB :=
  fetchLoop ParseURL NOW (db.feeds.map fun f => (f.id, f.url)) db

/-- The item loop with the existence check removed: every item goes straight to the
insert, and a rejected insert changes nothing but the sequence. -/
def ingestItemsNoCheck (feedID : Int) (db : DB) (items : List Item) : DB :=
  items.foldl (fun d item => (insertPost d feedID item.Title item.Link item.PublishedParsed).1) db

/-- The feed loop built on `ingestItemsNoCheck`. -/
def fetchLoopNoCheck (ParseURL : String → Option (List Item)) (NOW : Int → Int)
    (rows : List (Int × String)) (db : DB) : DB :=
  rows.foldl (fun d row =>
    match ParseURL row.2 with
    | none => d
    | some items => ingestItemsNoCheck row.1 (updateLastFetched d row.1 (NOW row.1)) items) db

/-! ## JSON values and the structs of models.go -/

/-- A JSON document (numbers restricted to integers). -/
inductive JSON where
  | null
  | bool (b : Bool)
  | num (n : Int)
  | str (s : String)
  | arr (xs : List JSON)
  | obj (kvs : List (String × JSON))

/-- Go `User` of models.go: `ID` is tagged `json:"id"`, `Username` `json:"username"` and
`Password` `json:"-"`. -/
structure User where
  ID : Int
  Username : String
  Password : String
deriving DecidableEq, Repr

/-- Go `Feed` of models.go. -/
structure Feed where
  ID : Int
  UserID : Int
  Name : String
  URL : String
  LastFetched : String
deriving DecidableEq, Repr

/-- Go `Post` of models.go. -/
structure Post where
  ID : Int
  FeedID : Int
  Title : String
  URL : String
  PublishedAt : String
deriving DecidableEq, Repr

/-- Key folding of `encoding/json` when it matches an object key against a field name:
ASCII case is ignored, and the Kelvin sign and the long s count as `k` and `s`. -/
def foldKey (k : String) : String :=
  String.mk (k.toList.map fun c =>
    if c = Char.ofNat 0x212A then 'k' else if c = Char.ofNat 0x17F then 's' else c.toLower)

/-- One key of a JSON object decoded into a `User`: the key `id` wants a number that fits
a Go `int`, the key `username` a string, a JSON `null` leaves the field alone, and every
other key is skipped.  The key `password` is among the skipped ones, since the tag
`json:"-"` removes `Password` from the fields `encoding/json` knows of.  `none` is a
decoding error. -/
def decodeUserField (u : User) (kv : String × JSON) : Option User :=
  if foldKey kv.1 = "id" then
    match kv.2 with
    | JSON.num n =>
      if -9223372036854775808 ≤ n ∧ n ≤ 9223372036854775807 then some { u with ID := n }
      else none
    | JSON.null => some u
    | _ => none
  else if foldKey kv.1 = "username" then
    match kv.2 with
    | JSON.str s => some { u with Username := s }
    | JSON.null => some u
    | _ => none
  else some u

/-- Go `json.NewDecoder(r.Body).Decode(&creds)` for `var creds User`; the body is `none`
when it is not a JSON document. -/
def decodeUser : Option JSON → Option User
  | none => none
  | some JSON.null => some ⟨0, "", ""⟩
  | some (JSON.obj kvs) => kvs.foldlM decodeUserField ⟨0, "", ""⟩
  | some _ => none

/-- A Go slice value: `none` is the nil slice of `var xs []T`. -/
abbrev Slice (α : Type) := Option (List α)

/-- Go `append` of one element. -/
def Slice.append {α : Type} (s : Slice α) (x : α) : Slice α :=
  match s with
  | none => some [x]
  | some xs => some (xs ++ [x])

/-- JSON encoding of a `Feed`. -/
def Feed.toJSON (f : Feed) : JSON :=
  JSON.obj [("id", JSON.num f.ID), ("user_id", JSON.num f.UserID), ("name", JSON.str f.Name),
    ("url", JSON.str f.URL), ("last_fetched", JSON.str f.LastFetched)]

/-- JSON encoding of a `Post`. -/
def Post.toJSON (p : Post) : JSON :=
  JSON.obj [("id", JSON.num p.ID), ("feed_id", JSON.num p.FeedID), ("title", JSON.str p.Title),
    ("url", JSON.str p.URL), ("published_at", JSON.str p.PublishedAt)]

/-- Go `json.NewEncoder(w).Encode(xs)` for a slice: a nil slice is written as `null`, any
other as an array. -/
def encodeSlice {α : Type} (enc : α → JSON) : Slice α → JSON
  | none => JSON.null
  | some xs => JSON.arr (xs.map enc)

/-! ## Requests, responses, tokens -/

/-- Go `Claims` of auth.go: `Username` and the fields of the embedded `jwt.StandardClaims`
that validation reads (`0` when absent). -/
structure Claims where
  Username : String
  ExpiresAt : Int
  IssuedAt : Int
  NotBefore : Int
deriving DecidableEq, Repr

/-- A well-formed compact token: header algorithm, claims, signature segment. -/
structure JWS where
  alg : String
  claims : Claims
  signature : String
deriving DecidableEq, Repr

/-- A token string; `none` stands for every string that is rejected before a signing
method and claims are at hand (not three decodable segments, or no `alg` in the header).
The handlers cannot tell these rejections apart. -/
abbrev TokenString := Option JWS

/-- The `http.Cookie` set by `Login`. -/
structure Cookie where
  Name : String
  Value : TokenString
  Expires : Int
  HttpOnly : Bool
  SameSite : String
  Path : String
deriving DecidableEq, Repr

/-- What the handlers read of an `http.Request`: the value of the cookie named `token`
if there is one, the body as a JSON document if it is one, and the `feedID` URL parameter. -/
structure Request where
  Cookie : Option TokenString
  Body : Option JSON
  feedID : String

/-- What a handler writes: status, cookie set, JSON body. -/
structure Response where
  status : Nat
  setCookie : Option Cookie
  body : Option JSON

/-- A response that is a bare `w.WriteHeader(status)`. -/
def statusOnly (status : Nat) : Response := ⟨status, none, none⟩

/-- Nanoseconds in `time.Hour`. -/
def Hour : Int := 3600 * 1000000000

/-- Go `Time.Unix()`: whole seconds since the epoch of an instant in nanoseconds. -/
def unixSeconds (t : Int) : Int := t / 1000000000

/-! ## jwt-go (v3) as used by auth.go and handlers.go -/

/-- The errors `ParseWithClaims` and the comparison in `AuthMiddlewareFunc` range over:
the package value `jwt.ErrSignatureInvalid`, and a `*jwt.ValidationError` with its
`Errors` bit field. -/
inductive JwtError where
  | ErrSignatureInvalid
  | ValidationError (Errors : Nat)
deriving DecidableEq, Repr

/-- Bit of `ValidationErrorMalformed`. -/
def ValidationErrorMalformed : Nat := 1
/-- Bit of `ValidationErrorUnverifiable`. -/
def ValidationErrorUnverifiable : Nat := 2
/-- Bit of `ValidationErrorSignatureInvalid`. -/
def ValidationErrorSignatureInvalid : Nat := 4
/-- Bit of `ValidationErrorExpired`. -/
def ValidationErrorExpired : Nat := 16
/-- Bit of `ValidationErrorIssuedAt`. -/
def ValidationErrorIssuedAt : Nat := 32
/-- Bit of `ValidationErrorNotValidYet`. -/
def ValidationErrorNotValidYet : Nat := 128

/-- Go `StandardClaims.Valid()` at Unix time `now`, as the `Errors` bit field (`0` is `nil`):
a claim equal to `0` is not checked. -/
def claimsValid (c : Claims) (now : Int) : Nat :=
  (if c.ExpiresAt ≠ 0 ∧ ¬ now ≤ c.ExpiresAt then ValidationErrorExpired else 0)
  ||| (if c.IssuedAt ≠ 0 ∧ ¬ c.IssuedAt ≤ now then ValidationErrorIssuedAt else 0)
  ||| (if c.NotBefore ≠ 0 ∧ ¬ c.NotBefore ≤ now then ValidationErrorNotValidYet else 0)

/-- Signing methods registered by the package. -/
def signingMethods : List String :=
  ["HS256", "HS384", "HS512", "RS256", "RS384", "RS512", "PS256", "PS384", "PS512",
   "ES256", "ES384", "ES512", "none"]

/-- Go `token.Method.Verify(signingString, signature, key)` for a `[]byte` key: only the
HMAC methods accept such a key, and they compare the signature with the MAC. -/
def verifySignature (HMAC : String → String → Claims → String) (key : String) (t : JWS) : Bool :=
  if t.alg ∈ ["HS256", "HS384", "HS512"] then decide (t.signature = HMAC t.alg key t.claims)
  else false

/-- A parsed `*jwt.Token`. -/
structure Token where
  Claims : Claims
  Valid : Bool
deriving DecidableEq, Repr

/-- Go `jwt.ParseWithClaims(tokenString, claims, keyFunc)` with a key function that returns
`key`: a string that is not a token is malformed, an unregistered algorithm unverifiable;
then the claims are validated and the signature verified, the failures are collected in
one `*ValidationError`, and the token is `Valid` only when there is none. -/
def ParseWithClaims (HMAC : String → String → Claims → String) (key : String) (now : Int)
    (tokenString : TokenString) : Except JwtError Token :=
  match tokenString with
  | none => Except.error (JwtError.ValidationError ValidationErrorMalformed)
  | some t =>
    if t.alg ∉ signingMethods then
      Except.error (JwtError.ValidationError ValidationErrorUnverifiable)
    else
      let errors := claimsValid t.claims now |||
        (if verifySignature HMAC key t then 0 else ValidationErrorSignatureInvalid)
      if errors = 0 then Except.ok ⟨t.claims, true⟩
      else Except.error (JwtError.ValidationError errors)

/-- Go `jwt.NewWithClaims(jwt.SigningMethodHS256, claims)` then `token.SignedString(key)`. -/
def SignedString (HMAC : String → String → Claims → String) (key : String) (claims : Claims) :
    TokenString :=
  some ⟨"HS256", claims, HMAC "HS256" key claims⟩

/-! ## auth.go -/

/-- SQL `INSERT INTO users (username, password) VALUES ($1, $2)`: rejected when the username
is taken; the sequence advances either way. -/
def insertUser (db : DB) (username password : String) : DB × Bool :=
  let db1 : DB := { db with users_id_seq := db.users_id_seq + 1 }
  if username ∈ db.users.map UsersRow.username then (db1, false)
  else ({ db1 with users := db.users ++ [⟨db.users_id_seq, username, password⟩] }, true)

/-- Go `Register` (auth.go 31-53).  `GenerateFromPassword password cost salt` stands for
`bcrypt.GenerateFromPassword` drawing the salt `salt` (`none` when it returns an error). -/
def Register (GenerateFromPassword : String → Nat → Nat → Option String) (salt : Nat)
    (db : DB) (r : Request) : DB × Response :=
  match decodeUser r.Body with
  | none => (db, statusOnly 400)
  | some creds =>
    match GenerateFromPassword creds.Password 8 salt with
    | none => (db, statusOnly 500)
    | some hashedPassword =>
      match insertUser db creds.Username hashedPassword with
      | (db1, false) => (db1, statusOnly 500)
      | (db1, true) => (db1, statusOnly 201)

/-- Go `Login` (auth.go 56-106).  `CompareHashAndPassword hash password` is `true` when
`bcrypt.CompareHashAndPassword` returns `nil`; `now` is `time.Now()`. -/
def Login (CompareHashAndPassword : String → String → Bool)
    (HMAC : String → String → Claims → String) (jwtKey : String) (now : Int)
    (db : DB) (r : Request) : Response :=
  match decodeUser r.Body with
  | none => statusOnly 400
  | some creds =>
    match db.users.find? (fun u => decide (u.username = creds.Username)) with
    | none => statusOnly 401
    | some storedCreds =>
      if ¬ CompareHashAndPassword storedCreds.password creds.Password then statusOnly 401
      else
        let expirationTime := now + 24 * Hour
        let claims : Claims :=
          { Username := creds.Username, ExpiresAt := unixSeconds expirationTime,
            IssuedAt := 0, NotBefore := 0 }
        let tokenString := SignedString HMAC jwtKey claims
        { status := 200
          setCookie := some
            { Name := "token", Value := tokenString, Expires := expirationTime,
              HttpOnly := true, SameSite := "Lax", Path := "/" }
          body := none }

/-- A handler: store and request in, store and response out. -/
abbrev Handler := DB → Request → DB × Response

/-- Go `AuthMiddlewareFunc` (auth.go 109-142) at time `now`. -/
def AuthMiddlewareFunc (HMAC : String → String → Claims → String) (jwtKey : String) (now : Int)
    (next : Handler) : Handler := fun db r =>
  match r.Cookie with
  | none => (db, statusOnly 401)
  | some tknStr =>
    match ParseWithClaims HMAC jwtKey (unixSeconds now) tknStr with
    | Except.error err =>
      if err = JwtError.ErrSignatureInvalid then (db, statusOnly 401)
      else (db, statusOnly 400)
    | Except.ok tkn =>
      if ¬ tkn.Valid then (db, statusOnly 401)
      else next db r

/-! ## handlers.go -/

/-- Go `GetUserFromToken` (handlers.go 16-31). -/
def GetUserFromToken (HMAC : String → String → Claims → String) (jwtKey : String) (now : Int)
    (r : Request) : Except String String :=
  match r.Cookie with
  | none => Except.error "http: named cookie not present"
  | some value =>
    match ParseWithClaims HMAC jwtKey (unixSeconds now) value with
    | Except.error _ => Except.error "invalid token"
    | Except.ok tkn =>
      if ¬ tkn.Valid then Except.error "invalid token"
      else Except.ok tkn.Claims.Username

/-- Go `GetUserID` (handlers.go 34-38): `SELECT id FROM users WHERE username = $1`. -/
def GetUserID (db : DB) (username : String) : Option Int :=
  (db.users.find? (fun u => decide (u.username = username))).map UsersRow.id

/-- Scan of a nullable timestamp into `sql.NullString` and then into the struct field. -/
def nullString (tsString : Int → String) : Option Int → String
  | none => ""
  | some t => tsString t

/-- Go `GetFeeds` (handlers.go 41-78); `tsString` renders a timestamp as the driver does. -/
def GetFeeds (HMAC : String → String → Claims → String) (jwtKey : String) (now : Int)
    (tsString : Int → String) (db : DB) (r : Request) : Response :=
  match GetUserFromToken HMAC jwtKey now r with
  | Except.error _ => statusOnly 401
  | Except.ok username =>
    match GetUserID db username with
    | none => statusOnly 500
    | some userID =>
      let rows := db.feeds.filter fun f => decide (f.user_id = some userID)
      let feeds : Slice Feed := rows.foldl (fun feeds row =>
        feeds.append
          { ID := row.id, UserID := userID, Name := row.name, URL := row.url,
            LastFetched := nullString tsString row.last_fetched }) none
      { status := 200, setCookie := none, body := some (encodeSlice Feed.toJSON feeds) }

/-- Go `strconv.Atoi`: an optional sign, then decimal digits only, the value within `int`. -/
def Atoi (s : String) : Option Int :=
  let cs := s.toList
  let neg := cs.head? = some '-'
  let ds := if cs.head? = some '-' ∨ cs.head? = some '+' then cs.tail else cs
  if ds = [] ∨ ¬ ds.all Char.isDigit then none
  else
    let n : Int := ds.foldl (fun a c => 10 * a + ((c.toNat : Int) - 48)) 0
    let v := if neg then -n else n
    if v < -9223372036854775808 ∨ 9223372036854775807 < v then none else some v

/-- SQL `DELETE FROM feeds WHERE id = $1 AND user_id = $2`, with the `ON DELETE CASCADE` of
`posts.feed_id`. -/
def deleteFeedRows (db : DB) (feedID userID : Int) : DB :=
  let deleted := db.feeds.filter fun f => decide (f.id = feedID ∧ f.user_id = some userID)
  { db with
    feeds := db.feeds.filter fun f => decide (¬ (f.id = feedID ∧ f.user_id = some userID))
    posts := db.posts.filter fun p => decide (p.feed_id ∉ deleted.map fun f => some f.id) }

/-- Range of the SQL type `INTEGER`, the type of `feeds.id` (`SERIAL`, main.go 102). -/
def inInteger (n : Int) : Prop := -2147483648 ≤ n ∧ n ≤ 2147483647

instance (n : Int) : Decidable (inInteger n) :=
  inferInstanceAs (Decidable (-2147483648 ≤ n ∧ n ≤ 2147483647))

/-- Go `DeleteFeed` (handlers.go 115-143).  The parameter `$1` of the `DELETE` is compared
with the `INTEGER` column `feeds.id`: a `feedID` outside that range is rejected by the
server, `db.Exec` returns the error and the handler answers 500 (handlers.go 135-139),
no row being touched. -/
def DeleteFeed (HMAC : String → String → Claims → String) (jwtKey : String) (now : Int) :
    Handler := fun db r =>
  match GetUserFromToken HMAC jwtKey now r with
  | Except.error _ => (db, statusOnly 401)
  | Except.ok username =>
    match GetUserID db username with
    | none => (db, statusOnly 500)
    | some userID =>
      match Atoi r.feedID with
      | none => (db, statusOnly 400)
      | some feedID =>
        if inInteger feedID then (deleteFeedRows db feedID userID, statusOnly 200)
        else (db, statusOnly 500)

/-- Order of a nullable timestamp column: `NULL` sorts as larger than every value. -/
def tsLE : Option Int → Option Int → Bool
  | _, none => true
  | none, some _ => false
  | some a, some b => decide (a ≤ b)

/-- SQL `ORDER BY p.published_at DESC`: `a` may come before `b`. -/
def publishedDesc (a b : PostsRow) : Prop := tsLE b.published_at a.published_at = true

instance : DecidableRel publishedDesc := fun a b =>
  inferInstanceAs (Decidable (tsLE b.published_at a.published_at = true))

/-- SQL `FROM posts p JOIN feeds f ON p.feed_id = f.id WHERE f.user_id = $1`. -/
def userPosts (db : DB) (userID : Int) : List PostsRow :=
  db.posts.flatMap fun p =>
    (db.feeds.filter fun f => decide (p.feed_id = some f.id ∧ f.user_id = some userID)).map
      fun _ => p

/-- The query of `GetPosts` without its `LIMIT`; rows that tie keep their storage order. -/
def userPostsSorted (db : DB) (userID : Int) : List PostsRow :=
  (userPosts db userID).insertionSort publishedDesc

/-- The query of `GetPosts` (handlers.go 160-167). -/
def recentPosts (db : DB) (userID : Int) : List PostsRow :=
  (userPostsSorted db userID).take 50

/-- The scan loop of `GetPosts` (handlers.go 176-188): a row that does not scan is skipped. -/
def scanPosts (tsString : Int → String) (rows : List PostsRow) : Slice Post :=
  rows.foldl (fun posts row =>
    match row.feed_id with
    | none => posts
    | some feedID =>
      posts.append
        { ID := row.id, FeedID := feedID, Title := row.title, URL := row.url,
          PublishedAt := nullString tsString row.published_at }) none

/-- Go `GetPosts` (handlers.go 146-191). -/
def GetPosts (HMAC : String → String → Claims → String) (jwtKey : String) (now : Int)
    (tsString : Int → String) (db : DB) (r : Request) : Response :=
  match GetUserFromToken HMAC jwtKey now r with
  | Except.error _ => statusOnly 401
  | Except.ok username =>
    match GetUserID db username with
    | none => statusOnly 500
    | some userID =>
      { status := 200, setCookie := none
        body := some (encodeSlice Post.toJSON (scanPosts tsString (recentPosts db userID))) }

/-- The `Post` that the scan loop builds from a row of the join. -/
def postOfRow (tsString : Int → String) (row : PostsRow) : Post :=
  { ID := row.id, FeedID := row.feed_id.getD 0, Title := row.title, URL := row.url,
    PublishedAt := nullString tsString row.published_at }

/-! ## A small concrete store -/

/-- One registered feed. -/
def exFeed : FeedsRow := ⟨1, some 1, "Blog", "http://x/feed.xml", none⟩

/-- A store with one user, one feed and one post already ingested. -/
def exDB : DB :=
  { users := [⟨1, "alice", "h"⟩]
    feeds := [exFeed]
    posts := [⟨1, some 1, "Old", "http://x/a", some 100⟩]
    users_id_seq := 2
    posts_id_seq := 2 }

/-- Three parsed items: the first is already stored, the other two are new. -/
def exItems : List Item :=
  [⟨"A", "http://x/a", some 100⟩, ⟨"B", "http://x/b", some 200⟩, ⟨"C", "http://x/c", none⟩]

/-- A parser that succeeds on the feed of `exFeed` only. -/
def exParseURL : String → Option (List Item) :=
  fun u => if u = "http://x/feed.xml" then some exItems else none

/-- A clock. -/
def exNOW : Int → Int := fun _ => 1000

/-- A stand-in for `bcrypt.GenerateFromPassword`. -/
def exGenerate : String → Nat → Nat → Option String :=
  fun password _ _ => some ("hash:" ++ password)

/-- A stand-in for `bcrypt.CompareHashAndPassword`, exact on the hashes of `exGenerate`. -/
def exCompare : String → String → Bool :=
  fun hash password => decide (hash = "hash:" ++ password)

/-- A stand-in for the MAC. -/
def exHMAC : String → String → Claims → String :=
  fun alg key claims => key ++ alg ++ claims.Username

/-- A request carrying only a JSON body. -/
def bodyRequest (body : JSON) : Request := ⟨none, some body, ""⟩

/-- A request carrying only a session cookie and a `feedID` parameter. -/
def cookieRequest (token : TokenString) (feedID : String) : Request := ⟨some token, none, feedID⟩

/-- A store with no rows. -/
def emptyDB : DB := ⟨[], [], [], 1, 1⟩

/-- A request body with the keys `username` and `password`. -/
def credentials (u p : String) : JSON :=
  JSON.obj [("username", JSON.str u), ("password", JSON.str p)]

/-- A timestamp renderer. -/
def exTsString : Int → String := fun t => toString t

/-- A handler that answers 200 and leaves the store alone. -/
def okHandler : Handler := fun db _ => (db, statusOnly 200)

/-- A session token of `alice`, signed with the key `secret`, expiring at Unix time 86400. -/
def exToken : TokenString := SignedString exHMAC "secret" ⟨"alice", 86400, 0, 0⟩

/-- The store `exDB` after one polling run. -/
def exPolled : DB := FetchRSSFeeds exParseURL exNOW exDB

/-- The store `exDB` before any post was ingested. -/
def exFresh : DB := { exDB with posts := [] }

/-- The store `exDB` before any feed was added. -/
def exNoFeeds : DB := { exDB with feeds := [], posts := [] }

/-! ## Poller: frame lemmas -/

theorem insertPost_feeds (db : DB) (fid : Int) (t u : String) (pa : Option Int) :
    (insertPost db fid t u pa).1.feeds = db.feeds := by
  unfold insertPost
  split_ifs <;> rfl

theorem insertPost_users (db : DB) (fid : Int) (t u : String) (pa : Option Int) :
    (insertPost db fid t u pa).1.users = db.users := by
  unfold insertPost
  split_ifs <;> rfl

theorem ingestItem_feeds (fid : Int) (db : DB) (it : Item) :
    (ingestItem fid db it).feeds = db.feeds := by
  unfold ingestItem
  split_ifs
  · rfl
  · exact insertPost_feeds _ _ _ _ _

theorem ingestItem_users (fid : Int) (db : DB) (it : Item) :
    (ingestItem fid db it).users = db.users := by
  unfold ingestItem
  split_ifs
  · rfl
  · exact insertPost_users _ _ _ _ _

theorem ingestItems_nil (fid : Int) (db : DB) : ingestItems fid db [] = db := rfl

theorem ingestItems_cons (fid : Int) (db : DB) (it : Item) (rest : List Item) :
    ingestItems fid db (it :: rest) = ingestItems fid (ingestItem fid db it) rest := rfl

theorem ingestItems_feeds (fid : Int) (items : List Item) (db : DB) :
    (ingestItems fid db items).feeds = db.feeds := by
  induction items generalizing db with
  | nil => rfl
  | cons it rest ih => rw [ingestItems_cons, ih, ingestItem_feeds]

theorem ingestItems_users (fid : Int) (items : List Item) (db : DB) :
    (ingestItems fid db items).users = db.users := by
  induction items generalizing db with
  | nil => rfl
  | cons it rest ih => rw [ingestItems_cons, ih, ingestItem_users]

/-- What one item does to the posts: nothing when its URL is stored, one appended row
otherwise (the feed being a stored one). -/
theorem ingestItem_posts (fid : Int) (db : DB) (it : Item)
    (hfk : fid ∈ db.feeds.map FeedsRow.id) :
    (ingestItem fid db it).posts =
      if it.Link ∈ db.posts.map PostsRow.url then db.posts
      else db.posts ++ [⟨db.posts_id_seq, some fid, it.Title, it.Link, it.PublishedParsed⟩] := by
  unfold ingestItem postExists insertPost
  by_cases h : it.Link ∈ db.posts.map PostsRow.url
  · simp [h]
  · simp only [h, decide_False, if_false, hfk, if_true]
    rfl

/-- Loop invariant of the item loop, in the words of the poller contract. -/
theorem ingestItems_spec (fid : Int) (items : List Item) (db : DB)
    (hfk : fid ∈ db.feeds.map FeedsRow.id) :
    ∃ added : List PostsRow,
      (ingestItems fid db items).posts = db.posts ++ added
      ∧ (added.map PostsRow.url).Nodup
      ∧ (∀ u, u ∈ added.map PostsRow.url ↔
            (u ∈ items.map Item.Link ∧ u ∉ db.posts.map PostsRow.url))
      ∧ (∀ p ∈ added, p.feed_id = some fid ∧
            ∃ it, items.find? (fun i => decide (i.Link = p.url)) = some it
              ∧ p.title = it.Title ∧ p.published_at = it.PublishedParsed) := by
  induction items generalizing db with
  | nil => exact ⟨[], by simp [ingestItems_nil]⟩
  | cons it rest ih =>
    have hfk1 : fid ∈ (ingestItem fid db it).feeds.map FeedsRow.id := by
      rw [ingestItem_feeds]; exact hfk
    obtain ⟨added, hposts, hnd, hiff, hrow⟩ := ih (ingestItem fid db it) hfk1
    rw [ingestItem_posts fid db it hfk] at hposts hiff
    rw [ingestItems_cons]
    by_cases h : it.Link ∈ db.posts.map PostsRow.url
    · simp only [h, if_true] at hposts hiff
      refine ⟨added, hposts, hnd, ?_, ?_⟩
      · intro u
        rw [hiff u]
        constructor
        · rintro ⟨h1, h2⟩
          exact ⟨List.mem_cons_of_mem _ h1, h2⟩
        · rintro ⟨h1, h2⟩
          refine ⟨?_, h2⟩
          rcases List.mem_cons.1 h1 with h3 | h3
          · exact absurd (h3 ▸ h) h2
          · exact h3
      · intro p hp
        obtain ⟨hf, it1, hfind, ht, hpa⟩ := hrow p hp
        refine ⟨hf, it1, ?_, ht, hpa⟩
        have hpu : p.url ∉ db.posts.map PostsRow.url :=
          ((hiff p.url).1 (List.mem_map_of_mem _ hp)).2
        have hne : ¬ it.Link = p.url := fun e => hpu (e ▸ h)
        simp only [List.find?_cons, hne, decide_False]
        exact hfind
    · simp only [h, if_false] at hposts hiff
      refine ⟨⟨db.posts_id_seq, some fid, it.Title, it.Link, it.PublishedParsed⟩ :: added,
        ?_, ?_, ?_, ?_⟩
      · rw [hposts]; simp
      · rw [List.map_cons, List.nodup_cons]
        refine ⟨?_, hnd⟩
        intro hmem
        have := ((hiff it.Link).1 hmem).2
        simp at this
      · intro u
        rw [List.map_cons, List.mem_cons, hiff u]
        simp only [List.map_append, List.map_cons, List.map_nil, List.mem_append,
          List.mem_singleton, List.mem_cons, not_or]
        constructor
        · rintro (h1 | ⟨h1, h2, _⟩)
          · subst h1; exact ⟨Or.inl rfl, h⟩
          · exact ⟨Or.inr h1, h2⟩
        · rintro ⟨h1 | h1, h2⟩
          · exact Or.inl h1
          · by_cases hu : u = it.Link
            · exact Or.inl hu
            · exact Or.inr ⟨h1, h2, hu, List.not_mem_nil _⟩
      · intro p hp
        rcases List.mem_cons.1 hp with hp | hp
        · subst hp
          exact ⟨rfl, it, by simp, rfl, rfl⟩
        · obtain ⟨hf, it1, hfind, ht, hpa⟩ := hrow p hp
          refine ⟨hf, it1, ?_, ht, hpa⟩
          have hpu := ((hiff p.url).1 (List.mem_map_of_mem _ hp)).2
          have hne : ¬ it.Link = p.url := by
            intro e
            apply hpu
            simp [e]
          simp only [List.find?_cons, hne, decide_False]
          exact hfind

/-! ## Poller: stored URLs only grow, and a processed item is stored -/

theorem insertPost_posts (db : DB) (fid : Int) (t u : String) (pa : Option Int) :
    (insertPost db fid t u pa).1.posts = db.posts ∨
      (u ∉ db.posts.map PostsRow.url ∧ fid ∈ db.feeds.map FeedsRow.id ∧
        (insertPost db fid t u pa).1.posts = db.posts ++ [⟨db.posts_id_seq, some fid, t, u, pa⟩]) := by
  unfold insertPost
  split_ifs with h1 h2
  · exact Or.inl rfl
  · exact Or.inr ⟨h1, h2, rfl⟩
  · exact Or.inl rfl

theorem ingestItem_cases (fid : Int) (db : DB) (it : Item) :
    (ingestItem fid db it).posts = db.posts ∨
      (it.Link ∉ db.posts.map PostsRow.url ∧
        (ingestItem fid db it).posts =
          db.posts ++ [⟨db.posts_id_seq, some fid, it.Title, it.Link, it.PublishedParsed⟩]) := by
  unfold ingestItem postExists
  split_ifs with h
  · exact Or.inl rfl
  · rcases insertPost_posts db fid it.Title it.Link it.PublishedParsed with h1 | ⟨h1, _, h3⟩
    · exact Or.inl h1
    · exact Or.inr ⟨h1, h3⟩

theorem ingestItem_mono (fid : Int) (db : DB) (it : Item) (u : String)
    (hu : u ∈ db.posts.map PostsRow.url) : u ∈ (ingestItem fid db it).posts.map PostsRow.url := by
  rcases ingestItem_cases fid db it with h | ⟨_, h⟩
  · rw [h]; exact hu
  · rw [h, List.map_append]; exact List.mem_append_left _ hu

theorem ingestItems_mono (fid : Int) (items : List Item) (db : DB) (u : String)
    (hu : u ∈ db.posts.map PostsRow.url) :
    u ∈ (ingestItems fid db items).posts.map PostsRow.url := by
  induction items generalizing db with
  | nil => exact hu
  | cons it rest ih =>
    rw [ingestItems_cons]
    exact ih _ (ingestItem_mono fid db it u hu)

theorem ingestItem_nodup (fid : Int) (db : DB) (it : Item)
    (hnd : (db.posts.map PostsRow.url).Nodup) :
    ((ingestItem fid db it).posts.map PostsRow.url).Nodup := by
  rcases ingestItem_cases fid db it with h | ⟨hn, h⟩
  · rw [h]; exact hnd
  · rw [h, List.map_append]
    refine List.Nodup.append hnd (by simp) ?_
    intro a ha hb
    simp only [List.map_cons, List.map_nil, List.mem_singleton] at hb
    exact hn (hb ▸ ha)

theorem ingestItems_nodup (fid : Int) (items : List Item) (db : DB)
    (hnd : (db.posts.map PostsRow.url).Nodup) :
    ((ingestItems fid db items).posts.map PostsRow.url).Nodup := by
  induction items generalizing db with
  | nil => exact hnd
  | cons it rest ih =>
    rw [ingestItems_cons]
    exact ih _ (ingestItem_nodup fid db it hnd)

theorem ingestItems_links (fid : Int) (items : List Item) (db : DB)
    (hfk : fid ∈ db.feeds.map FeedsRow.id) (it : Item) (hit : it ∈ items) :
    it.Link ∈ (ingestItems fid db items).posts.map PostsRow.url := by
  obtain ⟨added, hposts, _, hiff, _⟩ := ingestItems_spec fid items db hfk
  rw [hposts, List.map_append, List.mem_append]
  by_cases h : it.Link ∈ db.posts.map PostsRow.url
  · exact Or.inl h
  · exact Or.inr ((hiff it.Link).2 ⟨List.mem_map_of_mem _ hit, h⟩)

theorem ingestItems_noop (fid : Int) (items : List Item) (db : DB)
    (hall : ∀ it ∈ items, it.Link ∈ db.posts.map PostsRow.url) :
    ingestItems fid db items = db := by
  induction items generalizing db with
  | nil => rfl
  | cons it rest ih =>
    have h1 : ingestItem fid db it = db := by
      unfold ingestItem postExists
      simp [hall it (List.mem_cons_self _ _)]
    rw [ingestItems_cons, h1]
    exact ih db (fun i hi => hall i (List.mem_cons_of_mem _ hi))

/-! ## Poller: the feed loop -/

theorem updateLastFetched_ids (db : DB) (fid now : Int) :
    (updateLastFetched db fid now).feeds.map (fun f => (f.id, f.url)) =
      db.feeds.map (fun f => (f.id, f.url)) := by
  unfold updateLastFetched
  simp only [List.map_map]
  apply List.map_congr_left
  intro f _
  simp only [Function.comp]
  split_ifs <;> rfl

theorem feeds_id_of_rows (a b : List FeedsRow)
    (h : a.map (fun f => (f.id, f.url)) = b.map (fun f => (f.id, f.url))) :
    a.map FeedsRow.id = b.map FeedsRow.id := by
  have := congrArg (List.map Prod.fst) h
  simpa [List.map_map, Function.comp] using this

theorem fetchLoop_nil (P : String → Option (List Item)) (N : Int → Int) (db : DB) :
    fetchLoop P N [] db = db := rfl

theorem fetchLoop_cons (P : String → Option (List Item)) (N : Int → Int) (db : DB)
    (r : Int × String) (rows : List (Int × String)) :
    fetchLoop P N (r :: rows) db = fetchLoop P N rows (fetchFeed P N db r) := rfl

theorem fetchFeed_rows (P : String → Option (List Item)) (N : Int → Int) (db : DB)
    (r : Int × String) :
    (fetchFeed P N db r).feeds.map (fun f => (f.id, f.url)) =
      db.feeds.map (fun f => (f.id, f.url)) := by
  unfold fetchFeed
  cases P r.2 with
  | none => rfl
  | some items =>
    simp only
    rw [ingestItems_feeds, updateLastFetched_ids]

theorem fetchLoop_rows (P : String → Option (List Item)) (N : Int → Int)
    (rows : List (Int × String)) (db : DB) :
    (fetchLoop P N rows db).feeds.map (fun f => (f.id, f.url)) =
      db.feeds.map (fun f => (f.id, f.url)) := by
  induction rows generalizing db with
  | nil => rfl
  | cons r rows ih => rw [fetchLoop_cons, ih, fetchFeed_rows]

theorem fetchFeed_mono (P : String → Option (List Item)) (N : Int → Int) (db : DB)
    (r : Int × String) (u : String) (hu : u ∈ db.posts.map PostsRow.url) :
    u ∈ (fetchFeed P N db r).posts.map PostsRow.url := by
  unfold fetchFeed
  cases P r.2 with
  | none => exact hu
  | some items => exact ingestItems_mono _ _ _ _ hu

theorem fetchLoop_mono (P : String → Option (List Item)) (N : Int → Int)
    (rows : List (Int × String)) (db : DB) (u : String)
    (hu : u ∈ db.posts.map PostsRow.url) :
    u ∈ (fetchLoop P N rows db).posts.map PostsRow.url := by
  induction rows generalizing db with
  | nil => exact hu
  | cons r rows ih =>
    rw [fetchLoop_cons]
    exact ih _ (fetchFeed_mono P N db r u hu)

theorem fetchLoop_nodup (P : String → Option (List Item)) (N : Int → Int)
    (rows : List (Int × String)) (db : DB) (hnd : (db.posts.map PostsRow.url).Nodup) :
    ((fetchLoop P N rows db).posts.map PostsRow.url).Nodup := by
  induction rows generalizing db with
  | nil => exact hnd
  | cons r rows ih =>
    rw [fetchLoop_cons]
    apply ih
    unfold fetchFeed
    cases P r.2 with
    | none => exact hnd
    | some items => exact ingestItems_nodup _ _ _ hnd

/-- After the loop, every item of every feed that parsed is stored. -/
theorem fetchLoop_links (P : String → Option (List Item)) (N : Int → Int)
    (rows : List (Int × String)) (db : DB)
    (hfk : ∀ r ∈ rows, r.1 ∈ db.feeds.map FeedsRow.id)
    (r : Int × String) (hr : r ∈ rows) (items : List Item) (hp : P r.2 = some items)
    (it : Item) (hit : it ∈ items) :
    it.Link ∈ (fetchLoop P N rows db).posts.map PostsRow.url := by
  induction rows generalizing db with
  | nil => cases hr
  | cons r0 rows ih =>
    rw [fetchLoop_cons]
    have hids : (fetchFeed P N db r0).feeds.map FeedsRow.id = db.feeds.map FeedsRow.id :=
      feeds_id_of_rows _ _ (fetchFeed_rows P N db r0)
    rcases List.mem_cons.1 hr with h | h
    · subst h
      apply fetchLoop_mono
      unfold fetchFeed
      rw [hp]
      simp only
      apply ingestItems_links _ _ _ _ it hit
      rw [feeds_id_of_rows _ _ (updateLastFetched_ids db r.1 (N r.1))]
      exact hfk r (List.mem_cons_self _ _)
    · apply ih _ _ h
      intro r1 hr1
      rw [hids]
      exact hfk r1 (List.mem_cons_of_mem _ hr1)

/-- A loop over feeds whose items are all stored leaves the posts alone. -/
theorem fetchLoop_noop_posts (P : String → Option (List Item)) (N : Int → Int)
    (rows : List (Int × String)) (db : DB)
    (hall : ∀ r ∈ rows, ∀ items, P r.2 = some items →
      ∀ it ∈ items, it.Link ∈ db.posts.map PostsRow.url) :
    (fetchLoop P N rows db).posts = db.posts := by
  induction rows generalizing db with
  | nil => rfl
  | cons r rows ih =>
    rw [fetchLoop_cons]
    have h1 : (fetchFeed P N db r).posts = db.posts := by
      unfold fetchFeed
      cases hp : P r.2 with
      | none => rfl
      | some items =>
        simp only
        rw [ingestItems_noop]
        · rfl
        · exact hall r (List.mem_cons_self _ _) items hp
    rw [ih, h1]
    intro r1 hr1 items hp it hit
    rw [h1]
    exact hall r1 (List.mem_cons_of_mem _ hr1) items hp it hit

/-! ## Poller: contract theorems -/

/-- C1: one run over a feed whose fetch succeeds with items `items` appends exactly one post
per distinct item URL that was not stored; each appended post carries the feed id and the
title, URL and publish time of the first item with that URL; the feed's `last_fetched`
becomes the current time. -/
theorem FetchRSSFeeds_adds_one_post_per_new_url
    (ParseURL : String → Option (List Item)) (NOW : Int → Int) (db : DB) (f : FeedsRow)
    (items : List Item) (hf : f ∈ db.feeds) (hparse : ParseURL f.url = some items) :
    ∃ added : List PostsRow,
      (fetchLoop ParseURL NOW [(f.id, f.url)] db).posts = db.posts ++ added
      ∧ (added.map PostsRow.url).Nodup
      ∧ (∀ u, u ∈ added.map PostsRow.url ↔
            (u ∈ items.map Item.Link ∧ u ∉ db.posts.map PostsRow.url))
      ∧ added.length =
          (((items.map Item.Link).dedup).filter
            (fun u => decide (u ∉ db.posts.map PostsRow.url))).length
      ∧ (∀ p ∈ added, p.feed_id = some f.id ∧
            ∃ it, items.find? (fun i => decide (i.Link = p.url)) = some it
              ∧ p.title = it.Title ∧ p.published_at = it.PublishedParsed)
      ∧ (fetchLoop ParseURL NOW [(f.id, f.url)] db).feeds =
          db.feeds.map (fun g =>
            if g.id = f.id then { g with last_fetched := some (NOW f.id) } else g) := by
  have hfk : f.id ∈ (updateLastFetched db f.id (NOW f.id)).feeds.map FeedsRow.id := by
    rw [feeds_id_of_rows _ _ (updateLastFetched_ids db f.id (NOW f.id))]
    exact List.mem_map_of_mem _ hf
  obtain ⟨added, hposts, hnd, hiff, hrow⟩ :=
    ingestItems_spec f.id items (updateLastFetched db f.id (NOW f.id)) hfk
  have hrun : fetchLoop ParseURL NOW [(f.id, f.url)] db =
      ingestItems f.id (updateLastFetched db f.id (NOW f.id)) items := by
    rw [fetchLoop_cons, fetchLoop_nil]
    unfold fetchFeed
    simp only [hparse]
  have hup : (updateLastFetched db f.id (NOW f.id)).posts = db.posts := rfl
  rw [hup] at hposts hiff
  refine ⟨added, by rw [hrun, hposts], hnd, hiff, ?_, hrow, ?_⟩
  · have hnd2 : (((items.map Item.Link).dedup).filter
        (fun u => decide (u ∉ db.posts.map PostsRow.url))).Nodup :=
      (List.nodup_dedup _).filter _
    have hperm := (List.perm_ext_iff_of_nodup hnd hnd2).2 (by
      intro u
      rw [hiff u, List.mem_filter, List.mem_dedup]
      simp)
    rw [← hperm.length_eq, List.length_map]
  · rw [hrun, ingestItems_feeds]
    rfl

theorem FetchRSSFeeds_adds_one_post_per_new_url_witness :
    exFeed ∈ exDB.feeds ∧ exParseURL exFeed.url = some exItems ∧
    (fetchLoop exParseURL exNOW [(exFeed.id, exFeed.url)] exDB).posts.length
      = exDB.posts.length + 2 ∧
    ∃ added : List PostsRow,
      (fetchLoop exParseURL exNOW [(exFeed.id, exFeed.url)] exDB).posts = exDB.posts ++ added
      ∧ (added.map PostsRow.url).Nodup
      ∧ (∀ u, u ∈ added.map PostsRow.url ↔
            (u ∈ exItems.map Item.Link ∧ u ∉ exDB.posts.map PostsRow.url))
      ∧ added.length =
          (((exItems.map Item.Link).dedup).filter
            (fun u => decide (u ∉ exDB.posts.map PostsRow.url))).length
      ∧ (∀ p ∈ added, p.feed_id = some exFeed.id ∧
            ∃ it, exItems.find? (fun i => decide (i.Link = p.url)) = some it
              ∧ p.title = it.Title ∧ p.published_at = it.PublishedParsed)
      ∧ (fetchLoop exParseURL exNOW [(exFeed.id, exFeed.url)] exDB).feeds =
          exDB.feeds.map (fun g =>
            if g.id = exFeed.id then { g with last_fetched := some (exNOW exFeed.id) } else g) :=
  ⟨by decide, by decide, by decide,
    FetchRSSFeeds_adds_one_post_per_new_url exParseURL exNOW exDB exFeed exItems
      (by decide) (by decide)⟩

/-- C2: a feed whose fetch or parse fails leaves the store exactly as it was, and the run
goes on: the final store is the one of the same run with the failing feeds removed. -/
theorem FetchRSSFeeds_skips_failed_feeds
    (ParseURL : String → Option (List Item)) (NOW : Int → Int)
    (rows : List (Int × String)) (db : DB) :
    fetchLoop ParseURL NOW rows db =
        fetchLoop ParseURL NOW (rows.filter fun r => (ParseURL r.2).isSome) db
    ∧ ∀ r : Int × String, ParseURL r.2 = none → fetchFeed ParseURL NOW db r = db := by
  constructor
  · induction rows generalizing db with
    | nil => rfl
    | cons r rows ih =>
      cases hp : ParseURL r.2 with
      | none =>
        have h1 : fetchFeed ParseURL NOW db r = db := by
          unfold fetchFeed; rw [hp]
        rw [fetchLoop_cons, h1, List.filter_cons_of_neg (by simp [hp])]
        exact ih db
      | some items =>
        rw [List.filter_cons_of_pos (by simp [hp]), fetchLoop_cons, fetchLoop_cons]
        exact ih _
  · intro r hp
    unfold fetchFeed
    rw [hp]

theorem FetchRSSFeeds_skips_failed_feeds_witness :
    exParseURL "http://down/feed" = none ∧
    fetchLoop exParseURL exNOW [(7, "http://down/feed"), (1, "http://x/feed.xml")] exDB =
        fetchLoop exParseURL exNOW [(1, "http://x/feed.xml")] exDB
    ∧ fetchFeed exParseURL exNOW exDB (7, "http://down/feed") = exDB :=
  ⟨by decide,
   (FetchRSSFeeds_skips_failed_feeds exParseURL exNOW
      [(7, "http://down/feed"), (1, "http://x/feed.xml")] exDB).1,
   (FetchRSSFeeds_skips_failed_feeds exParseURL exNOW [] exDB).2 (7, "http://down/feed")
      (by decide)⟩

/-- C3: a second run with the same parser results inserts nothing, so the posts after two
runs are the posts after one; and a run keeps post URLs pairwise distinct. -/
theorem FetchRSSFeeds_idempotent
    (ParseURL : String → Option (List Item)) (NOW NOW2 : Int → Int) (db : DB) :
    (FetchRSSFeeds ParseURL NOW2 (FetchRSSFeeds ParseURL NOW db)).posts =
        (FetchRSSFeeds ParseURL NOW db).posts
    ∧ (PostsUnique db → PostsUnique (FetchRSSFeeds ParseURL NOW db)) := by
  constructor
  · have hrows : (FetchRSSFeeds ParseURL NOW db).feeds.map (fun f => (f.id, f.url)) =
        db.feeds.map (fun f => (f.id, f.url)) := fetchLoop_rows _ _ _ _
    show (fetchLoop ParseURL NOW2
        ((FetchRSSFeeds ParseURL NOW db).feeds.map fun f => (f.id, f.url))
        (FetchRSSFeeds ParseURL NOW db)).posts = _
    rw [hrows]
    apply fetchLoop_noop_posts
    intro r hr items hp it hit
    refine fetchLoop_links ParseURL NOW _ db ?_ r hr items hp it hit
    intro r1 hr1
    obtain ⟨g, hg, rfl⟩ := List.mem_map.1 hr1
    exact List.mem_map_of_mem _ hg
  · intro h
    exact fetchLoop_nodup _ _ _ _ h

theorem FetchRSSFeeds_idempotent_witness :
    PostsUnique exDB ∧
    (FetchRSSFeeds exParseURL exNOW (FetchRSSFeeds exParseURL exNOW exDB)).posts =
        (FetchRSSFeeds exParseURL exNOW exDB).posts
    ∧ PostsUnique (FetchRSSFeeds exParseURL exNOW exDB) :=
  ⟨by unfold PostsUnique; decide,
   (FetchRSSFeeds_idempotent exParseURL exNOW exNOW exDB).1,
   (FetchRSSFeeds_idempotent exParseURL exNOW exNOW exDB).2 (by unfold PostsUnique; decide)⟩

/-! ## Poller: the existence check against the bare insert -/

theorem posts_url_of_content (a b : List PostsRow)
    (h : a.map PostsRow.content = b.map PostsRow.content) :
    a.map PostsRow.url = b.map PostsRow.url := by
  have := congrArg (List.map fun c : Option Int × String × String × Option Int => c.2.2.1) h
  simpa [List.map_map, Function.comp, PostsRow.content] using this

theorem insertPost_posts_eq (db : DB) (fid : Int) (t u : String) (pa : Option Int) :
    (insertPost db fid t u pa).1.posts =
      if u ∈ db.posts.map PostsRow.url then db.posts
      else if fid ∈ db.feeds.map FeedsRow.id then
        db.posts ++ [⟨db.posts_id_seq, some fid, t, u, pa⟩]
      else db.posts := by
  unfold insertPost
  split_ifs <;> rfl

theorem ingestItem_posts_eq (fid : Int) (db : DB) (it : Item) :
    (ingestItem fid db it).posts =
      if it.Link ∈ db.posts.map PostsRow.url then db.posts
      else if fid ∈ db.feeds.map FeedsRow.id then
        db.posts ++ [⟨db.posts_id_seq, some fid, it.Title, it.Link, it.PublishedParsed⟩]
      else db.posts := by
  unfold ingestItem postExists
  by_cases h : it.Link ∈ db.posts.map PostsRow.url
  · simp [h]
  · simp only [h, decide_False, if_false, Bool.false_eq_true]
    rw [insertPost_posts_eq]
    simp only [h, if_false]

/-- One item, with the check on one side and the bare insert on the other, keeps two
stores equal on feeds and on post contents. -/
theorem ingestItem_sim (fid : Int) (d e : DB) (it : Item)
    (hfeeds : d.feeds = e.feeds)
    (hposts : d.posts.map PostsRow.content = e.posts.map PostsRow.content) :
    (ingestItem fid d it).feeds = (insertPost e fid it.Title it.Link it.PublishedParsed).1.feeds
    ∧ (ingestItem fid d it).posts.map PostsRow.content =
        (insertPost e fid it.Title it.Link it.PublishedParsed).1.posts.map PostsRow.content := by
  have hurl := posts_url_of_content _ _ hposts
  refine ⟨by rw [ingestItem_feeds, insertPost_feeds, hfeeds], ?_⟩
  rw [ingestItem_posts_eq, insertPost_posts_eq, hurl, hfeeds]
  split_ifs
  · exact hposts
  · rw [List.map_append, List.map_append, hposts]
    rfl
  · exact hposts

theorem ingestItemsNoCheck_cons (fid : Int) (db : DB) (it : Item) (rest : List Item) :
    ingestItemsNoCheck fid db (it :: rest) =
      ingestItemsNoCheck fid (insertPost db fid it.Title it.Link it.PublishedParsed).1 rest := rfl

theorem ingestItems_sim (fid : Int) (items : List Item) (d e : DB)
    (hfeeds : d.feeds = e.feeds)
    (hposts : d.posts.map PostsRow.content = e.posts.map PostsRow.content) :
    (ingestItems fid d items).feeds = (ingestItemsNoCheck fid e items).feeds
    ∧ (ingestItems fid d items).posts.map PostsRow.content =
        (ingestItemsNoCheck fid e items).posts.map PostsRow.content := by
  induction items generalizing d e with
  | nil => exact ⟨hfeeds, hposts⟩
  | cons it rest ih =>
    rw [ingestItems_cons, ingestItemsNoCheck_cons]
    obtain ⟨h1, h2⟩ := ingestItem_sim fid d e it hfeeds hposts
    exact ih _ _ h1 h2

theorem fetchLoopNoCheck_cons (P : String → Option (List Item)) (N : Int → Int) (db : DB)
    (r : Int × String) (rows : List (Int × String)) :
    fetchLoopNoCheck P N (r :: rows) db =
      fetchLoopNoCheck P N rows
        (match P r.2 with
          | none => db
          | some items => ingestItemsNoCheck r.1 (updateLastFetched db r.1 (N r.1)) items) := rfl

theorem fetchLoop_sim (P : String → Option (List Item)) (N : Int → Int)
    (rows : List (Int × String)) (d e : DB)
    (hfeeds : d.feeds = e.feeds)
    (hposts : d.posts.map PostsRow.content = e.posts.map PostsRow.content) :
    (fetchLoop P N rows d).feeds = (fetchLoopNoCheck P N rows e).feeds
    ∧ (fetchLoop P N rows d).posts.map PostsRow.content =
        (fetchLoopNoCheck P N rows e).posts.map PostsRow.content := by
  induction rows generalizing d e with
  | nil => exact ⟨hfeeds, hposts⟩
  | cons r rows ih =>
    rw [fetchLoop_cons, fetchLoopNoCheck_cons]
    unfold fetchFeed
    cases P r.2 with
    | none => exact ih _ _ hfeeds hposts
    | some items =>
      simp only
      have hf : (updateLastFetched d r.1 (N r.1)).feeds = (updateLastFetched e r.1 (N r.1)).feeds := by
        unfold updateLastFetched
        simp only [hfeeds]
      obtain ⟨h1, h2⟩ := ingestItems_sim r.1 items (updateLastFetched d r.1 (N r.1))
        (updateLastFetched e r.1 (N r.1)) hf hposts
      exact ih _ _ h1 h2

/-- C10: the existence check is only a pre-filter.  The item loop and the whole feed loop
leave the same posts (feed id, title, URL, publish time) and the same feeds with the check
as with every item sent straight to the insert; an insert of a stored URL is rejected and
changes no row; and the loop goes on after any item, rejected or not. -/
theorem existence_check_is_a_prefilter
    (ParseURL : String → Option (List Item)) (NOW : Int → Int)
    (rows : List (Int × String)) (db : DB) (fid : Int) (items : List Item) :
    ((ingestItems fid db items).posts.map PostsRow.content =
        (ingestItemsNoCheck fid db items).posts.map PostsRow.content)
    ∧ ((fetchLoop ParseURL NOW rows db).posts.map PostsRow.content =
        (fetchLoopNoCheck ParseURL NOW rows db).posts.map PostsRow.content)
    ∧ ((fetchLoop ParseURL NOW rows db).feeds = (fetchLoopNoCheck ParseURL NOW rows db).feeds)
    ∧ (∀ (t u : String) (pa : Option Int), u ∈ db.posts.map PostsRow.url →
        (insertPost db fid t u pa).2 = false
        ∧ (insertPost db fid t u pa).1.posts = db.posts
        ∧ (insertPost db fid t u pa).1.feeds = db.feeds
        ∧ (insertPost db fid t u pa).1.users = db.users)
    ∧ (∀ (it : Item) (rest : List Item),
        ingestItemsNoCheck fid db (it :: rest) =
          ingestItemsNoCheck fid (insertPost db fid it.Title it.Link it.PublishedParsed).1 rest)
    ∧ (∀ (r : Int × String) (rest : List (Int × String)),
        fetchLoop ParseURL NOW (r :: rest) db =
          fetchLoop ParseURL NOW rest (fetchFeed ParseURL NOW db r)) := by
  refine ⟨(ingestItems_sim fid items db db rfl rfl).2,
    (fetchLoop_sim ParseURL NOW rows db db rfl rfl).2,
    (fetchLoop_sim ParseURL NOW rows db db rfl rfl).1, ?_, ?_, ?_⟩
  · intro t u pa hu
    unfold insertPost
    simp [hu]
  · intro it rest
    rfl
  · intro r rest
    rfl

theorem existence_check_is_a_prefilter_witness :
    "http://x/a" ∈ exDB.posts.map PostsRow.url
    ∧ (ingestItems 1 exDB exItems).posts.map PostsRow.content =
        (ingestItemsNoCheck 1 exDB exItems).posts.map PostsRow.content
    ∧ (insertPost exDB 1 "A" "http://x/a" (some 100)).2 = false
    ∧ (insertPost exDB 1 "A" "http://x/a" (some 100)).1.posts = exDB.posts
    ∧ (ingestItems 1 exDB exItems).posts_id_seq = 4
    ∧ (ingestItemsNoCheck 1 exDB exItems).posts_id_seq = 5 :=
  ⟨by decide,
   (existence_check_is_a_prefilter exParseURL exNOW [] exDB 1 exItems).1,
   ((existence_check_is_a_prefilter exParseURL exNOW [] exDB 1 exItems).2.2.2.1
      "A" "http://x/a" (some 100) (by decide)).1,
   ((existence_check_is_a_prefilter exParseURL exNOW [] exDB 1 exItems).2.2.2.1
      "A" "http://x/a" (some 100) (by decide)).2.1,
   by decide, by decide⟩

/-! ## Tokens -/

/-- Every error of `ParseWithClaims` is a `*ValidationError`, never the bare package value. -/
theorem ParseWithClaims_error (HMAC : String → String → Claims → String) (key : String)
    (now : Int) (s : TokenString) (e : JwtError)
    (h : ParseWithClaims HMAC key now s = Except.error e) :
    e ≠ JwtError.ErrSignatureInvalid := by
  unfold ParseWithClaims at h
  cases s with
  | none =>
    simp only at h
    cases h
    simp
  | some t =>
    simp only at h
    split_ifs at h <;> cases h <;> simp

/-- A token with a bad signature, or past its expiry, does not parse. -/
theorem ParseWithClaims_rejects (HMAC : String → String → Claims → String) (key : String)
    (now : Int) (t : JWS)
    (hbad : verifySignature HMAC key t = false ∨
      (t.claims.ExpiresAt ≠ 0 ∧ t.claims.ExpiresAt < now)) :
    ∃ n, ParseWithClaims HMAC key now (some t) = Except.error (JwtError.ValidationError n) := by
  unfold ParseWithClaims
  by_cases h1 : t.alg ∈ signingMethods
  · have herr : (claimsValid t.claims now |||
        (if verifySignature HMAC key t = true then 0 else ValidationErrorSignatureInvalid)) ≠ 0 := by
      rcases hbad with hs | ⟨he1, he2⟩
      · rw [hs]
        simp only [Bool.false_eq_true, if_false]
        unfold claimsValid ValidationErrorExpired ValidationErrorIssuedAt
          ValidationErrorNotValidYet ValidationErrorSignatureInvalid
        split_ifs <;> decide
      · have hexp : t.claims.ExpiresAt ≠ 0 ∧ ¬ now ≤ t.claims.ExpiresAt := ⟨he1, not_le.2 he2⟩
        unfold claimsValid ValidationErrorExpired ValidationErrorIssuedAt
          ValidationErrorNotValidYet ValidationErrorSignatureInvalid
        rw [if_pos hexp]
        split_ifs <;> decide
    simp only [h1, not_true_eq_false, if_false, herr]
    exact ⟨_, rfl⟩
  · simp only [h1, not_false_eq_true, if_true]
    exact ⟨_, rfl⟩

/-- A token signed by `SignedString` with the same key parses as long as it has not
expired. -/
theorem ParseWithClaims_signed (HMAC : String → String → Claims → String) (key : String)
    (now : Int) (u : String) (exp : Int) (hexp : now ≤ exp) :
    ParseWithClaims HMAC key now (SignedString HMAC key ⟨u, exp, 0, 0⟩) =
      Except.ok ⟨⟨u, exp, 0, 0⟩, true⟩ := by
  unfold ParseWithClaims SignedString
  have halg : "HS256" ∈ signingMethods := by decide
  have hv : verifySignature HMAC key ⟨"HS256", ⟨u, exp, 0, 0⟩, HMAC "HS256" key ⟨u, exp, 0, 0⟩⟩
      = true := by
    unfold verifySignature
    simp
  have hc : claimsValid ⟨u, exp, 0, 0⟩ now = 0 := by
    unfold claimsValid
    simp [hexp]
  simp only [halg, not_true_eq_false, if_false, hv, if_true, hc]
  rfl

theorem unixSeconds_mono (a b : Int) (h : a ≤ b) : unixSeconds a ≤ unixSeconds b := by
  unfold unixSeconds
  omega

theorem unixSeconds_add_day (t : Int) : unixSeconds (t + 24 * Hour) = unixSeconds t + 86400 := by
  unfold unixSeconds Hour
  omega

/-! ## auth.go: theorems -/

/-- The password of a request body never reaches `creds`. -/
theorem decodeUser_credentials (u p : String) :
    decodeUser (some (credentials u p)) = some ⟨0, u, ""⟩ := by
  have h1 : foldKey "username" ≠ "id" := by decide
  have h2 : foldKey "username" = "username" := by decide
  have h3 : foldKey "password" ≠ "id" := by decide
  have h4 : foldKey "password" ≠ "username" := by decide
  simp [decodeUser, credentials, List.foldlM, decodeUserField, h1, h2, h3, h4]

theorem find?_append_new (us : List UsersRow) (row : UsersRow)
    (h : row.username ∉ us.map UsersRow.username) :
    (us ++ [row]).find? (fun u => decide (u.username = row.username)) = some row := by
  induction us with
  | nil => simp
  | cons a rest ih =>
    simp only [List.map_cons, List.mem_cons, not_or] at h
    have hne : ¬ a.username = row.username := fun e => h.1 e.symm
    simp only [List.cons_append, List.find?_cons, hne, decide_False]
    exact ih h.2

/-- C4 (as the code behaves): whatever passwords the registration and the login bodies
carry, a user registered through `Register` is logged in by `Login`: status 200 and a
session cookie, since both handlers hash and compare the empty password. -/
theorem Login_ignores_the_password
    (GenerateFromPassword : String → Nat → Nat → Option String)
    (CompareHashAndPassword : String → String → Bool)
    (HMAC : String → String → Claims → String) (jwtKey : String) (salt : Nat) (now : Int)
    (db : DB) (u p q : String)
    (hbcrypt : ∀ h, GenerateFromPassword "" 8 salt = some h → CompareHashAndPassword h "" = true)
    (hreg : (Register GenerateFromPassword salt db (bodyRequest (credentials u p))).2.status = 201) :
    (Login CompareHashAndPassword HMAC jwtKey now
        (Register GenerateFromPassword salt db (bodyRequest (credentials u p))).1
        (bodyRequest (credentials u q))).status = 200
    ∧ (Login CompareHashAndPassword HMAC jwtKey now
        (Register GenerateFromPassword salt db (bodyRequest (credentials u p))).1
        (bodyRequest (credentials u q))).setCookie.isSome = true := by
  unfold Register at hreg ⊢
  simp only [bodyRequest, decodeUser_credentials] at hreg ⊢
  cases hg : GenerateFromPassword "" 8 salt with
  | none => simp [hg, statusOnly] at hreg
  | some h =>
    simp only [hg] at hreg ⊢
    unfold insertUser at hreg ⊢
    by_cases hu : u ∈ db.users.map UsersRow.username
    · simp [hu, statusOnly] at hreg
    · simp only [hu, if_false]
      unfold Login
      simp only [decodeUser_credentials]
      have hfind := find?_append_new db.users ⟨db.users_id_seq, u, h⟩ hu
      simp only at hfind
      simp only [hfind, hbcrypt h hg, not_true_eq_false, if_false]
      simp

theorem Login_ignores_the_password_witness :
    (Register exGenerate 0 emptyDB (bodyRequest (credentials "alice" "pw123"))).2.status = 201
    ∧ (Login exCompare exHMAC "secret" 0
        (Register exGenerate 0 emptyDB (bodyRequest (credentials "alice" "pw123"))).1
        (bodyRequest (credentials "alice" "wrong"))).status = 200
    ∧ (Login exCompare exHMAC "secret" 0
        (Register exGenerate 0 emptyDB (bodyRequest (credentials "alice" "pw123"))).1
        (bodyRequest (credentials "alice" "wrong"))).setCookie.isSome = true :=
  ⟨by decide,
   Login_ignores_the_password exGenerate exCompare exHMAC "secret" 0 0 emptyDB
     "alice" "pw123" "wrong" (by intro h hh; cases hh; decide) (by decide)⟩

/-- C5 (as the code behaves): a request whose `token` cookie holds a token with a bad
signature, or an expired one, is answered 400 by `AuthMiddlewareFunc`, whatever the
wrapped handler is; the store is untouched. -/
theorem AuthMiddlewareFunc_bad_token_is_400
    (HMAC : String → String → Claims → String) (jwtKey : String) (now : Int)
    (next : Handler) (db : DB) (r : Request) (t : JWS)
    (hcookie : r.Cookie = some (some t))
    (hbad : verifySignature HMAC jwtKey t = false ∨
      (t.claims.ExpiresAt ≠ 0 ∧ t.claims.ExpiresAt < unixSeconds now)) :
    AuthMiddlewareFunc HMAC jwtKey now next db r = (db, statusOnly 400) := by
  obtain ⟨n, hn⟩ := ParseWithClaims_rejects HMAC jwtKey (unixSeconds now) t hbad
  unfold AuthMiddlewareFunc
  simp only [hcookie, hn]
  simp

theorem AuthMiddlewareFunc_bad_token_is_400_witness :
    verifySignature exHMAC "secret" ⟨"HS256", ⟨"alice", 86400, 0, 0⟩, "forged"⟩ = false
    ∧ AuthMiddlewareFunc exHMAC "secret" 0 okHandler emptyDB
        (cookieRequest (some ⟨"HS256", ⟨"alice", 86400, 0, 0⟩, "forged"⟩) "")
      = (emptyDB, statusOnly 400)
    ∧ AuthMiddlewareFunc exHMAC "secret" (90000 * 1000000000) okHandler emptyDB
        (cookieRequest (SignedString exHMAC "secret" ⟨"alice", 86400, 0, 0⟩) "")
      = (emptyDB, statusOnly 400) :=
  ⟨by decide,
   AuthMiddlewareFunc_bad_token_is_400 exHMAC "secret" 0 okHandler emptyDB
     (cookieRequest (some ⟨"HS256", ⟨"alice", 86400, 0, 0⟩, "forged"⟩) "")
     ⟨"HS256", ⟨"alice", 86400, 0, 0⟩, "forged"⟩ rfl (Or.inl (by decide)),
   AuthMiddlewareFunc_bad_token_is_400 exHMAC "secret" (90000 * 1000000000) okHandler emptyDB
     (cookieRequest (SignedString exHMAC "secret" ⟨"alice", 86400, 0, 0⟩) "")
     ⟨"HS256", ⟨"alice", 86400, 0, 0⟩, exHMAC "HS256" "secret" ⟨"alice", 86400, 0, 0⟩⟩ rfl
     (Or.inr (by decide))⟩

/-- C6: a successful `Login` at time `now` sets a cookie whose token carries the username
of the request and the expiry `now + 24h` (as Unix seconds), and `GetUserFromToken` on a
request carrying that token, with the same key, at any time up to `now + 24h`, returns
that username. -/
theorem Login_token_round_trip
    (CompareHashAndPassword : String → String → Bool)
    (HMAC : String → String → Claims → String) (jwtKey : String) (now : Int)
    (db : DB) (r : Request)
    (hok : (Login CompareHashAndPassword HMAC jwtKey now db r).status = 200) :
    ∃ (creds : User) (c : Cookie) (t : JWS),
      decodeUser r.Body = some creds
      ∧ (Login CompareHashAndPassword HMAC jwtKey now db r).setCookie = some c
      ∧ c.Name = "token" ∧ c.Value = some t ∧ c.Expires = now + 24 * Hour
      ∧ t.claims.Username = creds.Username
      ∧ t.claims.ExpiresAt = unixSeconds (now + 24 * Hour)
      ∧ t.claims.ExpiresAt = unixSeconds now + 86400
      ∧ ∀ (later : Int) (r2 : Request), r2.Cookie = some c.Value → later ≤ now + 24 * Hour →
          GetUserFromToken HMAC jwtKey later r2 = Except.ok creds.Username := by
  unfold Login at hok ⊢
  cases hd : decodeUser r.Body with
  | none => simp [hd, statusOnly] at hok
  | some creds =>
    simp only [hd] at hok ⊢
    cases hf : db.users.find? (fun u => decide (u.username = creds.Username)) with
    | none => simp [hf, statusOnly] at hok
    | some stored =>
      simp only [hf] at hok ⊢
      by_cases hc : CompareHashAndPassword stored.password creds.Password = true
      · simp only [hc, not_true_eq_false, if_false]
        refine ⟨creds, _, ⟨"HS256", ⟨creds.Username, unixSeconds (now + 24 * Hour), 0, 0⟩, _⟩,
          rfl, rfl, rfl, rfl, rfl, rfl, rfl, unixSeconds_add_day now, ?_⟩
        intro later r2 hr2 hlater
        unfold GetUserFromToken
        simp only [hr2]
        have := ParseWithClaims_signed HMAC jwtKey (unixSeconds later) creds.Username
          (unixSeconds (now + 24 * Hour)) (unixSeconds_mono _ _ hlater)
        simp only [this]
        simp
      · simp [hc, statusOnly] at hok

theorem Login_token_round_trip_witness :
    (Login exCompare exHMAC "secret" 5
      (Register exGenerate 0 emptyDB (bodyRequest (credentials "alice" "pw123"))).1
      (bodyRequest (credentials "alice" "pw123"))).status = 200
    ∧ ∃ (creds : User) (c : Cookie) (t : JWS),
      decodeUser (bodyRequest (credentials "alice" "pw123")).Body = some creds
      ∧ (Login exCompare exHMAC "secret" 5
          (Register exGenerate 0 emptyDB (bodyRequest (credentials "alice" "pw123"))).1
          (bodyRequest (credentials "alice" "pw123"))).setCookie = some c
      ∧ c.Name = "token" ∧ c.Value = some t ∧ c.Expires = 5 + 24 * Hour
      ∧ t.claims.Username = creds.Username
      ∧ t.claims.ExpiresAt = unixSeconds (5 + 24 * Hour)
      ∧ t.claims.ExpiresAt = unixSeconds 5 + 86400
      ∧ ∀ (later : Int) (r2 : Request), r2.Cookie = some c.Value → later ≤ 5 + 24 * Hour →
          GetUserFromToken exHMAC "secret" later r2 = Except.ok creds.Username :=
  ⟨by decide,
   Login_token_round_trip exCompare exHMAC "secret" 5
     (Register exGenerate 0 emptyDB (bodyRequest (credentials "alice" "pw123"))).1
     (bodyRequest (credentials "alice" "pw123")) (by decide)⟩

/-! ## handlers.go: the posts query -/

theorem publishedDesc_total (a b : PostsRow) : publishedDesc a b ∨ publishedDesc b a := by
  unfold publishedDesc
  cases ha : a.published_at <;> cases hb : b.published_at <;> simp [tsLE]
  exact Int.le_total _ _

theorem publishedDesc_trans (a b c : PostsRow) (h1 : publishedDesc a b)
    (h2 : publishedDesc b c) : publishedDesc a c := by
  unfold publishedDesc at *
  cases ha : a.published_at <;> cases hb : b.published_at <;> cases hc : c.published_at <;>
    simp [tsLE, ha, hb, hc] at h1 h2 ⊢
  exact le_trans h2 h1

theorem userPostsSorted_sorted (db : DB) (uid : Int) :
    (userPostsSorted db uid).Pairwise publishedDesc :=
  @List.sorted_insertionSort _ publishedDesc _ ⟨publishedDesc_total⟩ ⟨publishedDesc_trans⟩ _

theorem mem_userPosts (db : DB) (uid : Int) (p : PostsRow) (hp : p ∈ userPosts db uid) :
    p ∈ db.posts ∧ ∃ f ∈ db.feeds, p.feed_id = some f.id ∧ f.user_id = some uid := by
  unfold userPosts at hp
  obtain ⟨q, hq, hpq⟩ := List.mem_flatMap.1 hp
  obtain ⟨f, hf, rfl⟩ := List.mem_map.1 hpq
  obtain ⟨hf1, hf2⟩ := List.mem_filter.1 hf
  exact ⟨hq, f, hf1, of_decide_eq_true hf2⟩

theorem scanPosts_fold (ts : Int → String) (rows : List PostsRow) (acc : Slice Post)
    (hall : ∀ p ∈ rows, p.feed_id ≠ none) :
    rows.foldl (fun posts row =>
      match row.feed_id with
      | none => posts
      | some feedID =>
        Slice.append posts
          { ID := row.id, FeedID := feedID, Title := row.title, URL := row.url,
            PublishedAt := nullString ts row.published_at }) acc
      = if rows = [] then acc else some (acc.getD [] ++ rows.map (postOfRow ts)) := by
  induction rows generalizing acc with
  | nil => simp
  | cons r rest ih =>
    have hr := hall r (List.mem_cons_self _ _)
    rw [List.foldl_cons, ih _ (fun p hp => hall p (List.mem_cons_of_mem _ hp))]
    cases hfid : r.feed_id with
    | none => exact absurd hfid hr
    | some fid =>
      have hrow : postOfRow ts r = ⟨r.id, fid, r.title, r.url, nullString ts r.published_at⟩ := by
        simp [postOfRow, hfid]
      cases acc with
      | none =>
        by_cases hrest : rest = []
        · simp [hrest, Slice.append, hrow]
        · simp [hrest, Slice.append, hrow]
      | some xs =>
        by_cases hrest : rest = []
        · simp [hrest, Slice.append, hrow]
        · simp [hrest, Slice.append, hrow]

theorem scanPosts_eq (ts : Int → String) (rows : List PostsRow)
    (hall : ∀ p ∈ rows, p.feed_id ≠ none) :
    scanPosts ts rows = if rows = [] then none else some (rows.map (postOfRow ts)) := by
  unfold scanPosts
  rw [scanPosts_fold ts rows none hall]
  simp

/-- C7: for an authenticated user `GetPosts` answers 200 with the posts of the rows
`recentPosts`: at most 50 rows, each a stored post of a feed owned by that user, in
descending order of `published_at` over all the user's feeds together, and a prefix of the
full descending ordering of the user's posts. -/
theorem GetPosts_returns_recent_posts
    (HMAC : String → String → Claims → String) (jwtKey : String) (now : Int)
    (tsString : Int → String) (db : DB) (r : Request) (username : String) (uid : Int)
    (hauth : GetUserFromToken HMAC jwtKey now r = Except.ok username)
    (huid : GetUserID db username = some uid) :
    (GetPosts HMAC jwtKey now tsString db r).status = 200
    ∧ (GetPosts HMAC jwtKey now tsString db r).body =
        some (encodeSlice Post.toJSON (scanPosts tsString (recentPosts db uid)))
    ∧ (scanPosts tsString (recentPosts db uid)).getD [] =
        (recentPosts db uid).map (postOfRow tsString)
    ∧ (recentPosts db uid).length ≤ 50
    ∧ (∀ p ∈ recentPosts db uid,
        p ∈ db.posts ∧ ∃ f ∈ db.feeds, p.feed_id = some f.id ∧ f.user_id = some uid)
    ∧ (recentPosts db uid).Pairwise publishedDesc
    ∧ recentPosts db uid <+: userPostsSorted db uid
    ∧ (userPostsSorted db uid).Pairwise publishedDesc
    ∧ (userPostsSorted db uid).Perm (userPosts db uid) := by
  have hperm : (userPostsSorted db uid).Perm (userPosts db uid) :=
    List.perm_insertionSort _ _
  have hpre : recentPosts db uid <+: userPostsSorted db uid := List.take_prefix _ _
  have hmem : ∀ p ∈ recentPosts db uid,
      p ∈ db.posts ∧ ∃ f ∈ db.feeds, p.feed_id = some f.id ∧ f.user_id = some uid := by
    intro p hp
    exact mem_userPosts db uid p (hperm.subset (hpre.subset hp))
  refine ⟨?_, ?_, ?_, List.length_take_le _ _, hmem,
    (userPostsSorted_sorted db uid).sublist hpre.sublist, hpre,
    userPostsSorted_sorted db uid, hperm⟩
  · unfold GetPosts
    simp only [hauth, huid]
  · unfold GetPosts
    simp only [hauth, huid]
  · rw [scanPosts_eq tsString _ (fun p hp => by
      obtain ⟨_, f, _, hf, _⟩ := hmem p hp
      rw [hf]
      simp)]
    by_cases h : recentPosts db uid = []
    · simp [h]
    · simp [h]

/-! ## handlers.go: deleting a feed -/

theorem deleteFeedRows_noop (db : DB) (f uid : Int)
    (h : ∀ fd ∈ db.feeds, fd.id = f → fd.user_id ≠ some uid) :
    deleteFeedRows db f uid = db := by
  unfold deleteFeedRows
  have h1 : (db.feeds.filter fun g => decide (g.id = f ∧ g.user_id = some uid)) = [] := by
    rw [List.filter_eq_nil_iff]
    intro g hg
    simp only [decide_eq_true_eq, not_and]
    exact h g hg
  have h2 : (db.feeds.filter fun g => decide (¬ (g.id = f ∧ g.user_id = some uid))) = db.feeds := by
    rw [List.filter_eq_self]
    intro g hg
    simp only [decide_eq_true_eq, not_and]
    exact h g hg
  simp only [h1, h2, List.map_nil, List.not_mem_nil, not_false_eq_true, decide_True,
    List.filter_true]

theorem deleteFeedRows_owned (db : DB) (f uid : Int) (hpk : FeedIdsUnique db)
    (hown : ∃ fd ∈ db.feeds, fd.id = f ∧ fd.user_id = some uid) :
    (deleteFeedRows db f uid).feeds = db.feeds.filter (fun g => decide (g.id ≠ f))
    ∧ (deleteFeedRows db f uid).posts = db.posts.filter (fun p => decide (p.feed_id ≠ some f))
    ∧ (deleteFeedRows db f uid).users = db.users := by
  obtain ⟨fd, hfd, hid, huser⟩ := hown
  have huniq : ∀ g ∈ db.feeds, g.id = f → g.user_id = some uid := by
    intro g hg hgid
    have : g = fd := List.inj_on_of_nodup_map hpk hg hfd (hgid.trans hid.symm)
    rw [this]; exact huser
  unfold deleteFeedRows
  refine ⟨?_, ?_, rfl⟩
  · apply List.filter_congr
    intro g hg
    apply decide_eq_decide.2
    constructor
    · intro h1 h2
      exact h1 ⟨h2, huniq g hg h2⟩
    · intro h1 h2
      exact h1 h2.1
  · apply List.filter_congr
    intro p _
    apply decide_eq_decide.2
    constructor
    · intro h1 h2
      apply h1
      rw [h2]
      exact List.mem_map.2 ⟨fd, List.mem_filter.2 ⟨hfd, by simp [hid, huser]⟩, by rw [hid]⟩
    · intro h1 hmem
      obtain ⟨g, hg, hge⟩ := List.mem_map.1 hmem
      have hg2 := (List.mem_filter.1 hg).2
      simp only [decide_eq_true_eq] at hg2
      exact h1 (by rw [← hge, hg2.1])

/-- C8 (amended): `DeleteFeed` by an authenticated user, for a feed id within the range of
the `INTEGER` column `feeds.id`, answers 200; when the feed id does not exist or belongs to
another user the store is unchanged; when it belongs to the caller exactly that feed and
its posts are removed and all else stays. -/
theorem DeleteFeed_scoped_by_owner
    (HMAC : String → String → Claims → String) (jwtKey : String) (now : Int)
    (db : DB) (r : Request) (username : String) (uid f : Int)
    (hauth : GetUserFromToken HMAC jwtKey now r = Except.ok username)
    (huid : GetUserID db username = some uid)
    (hid : Atoi r.feedID = some f)
    (hrange : inInteger f) :
    (DeleteFeed HMAC jwtKey now db r).2 = statusOnly 200
    ∧ ((∀ fd ∈ db.feeds, fd.id = f → fd.user_id ≠ some uid) →
        (DeleteFeed HMAC jwtKey now db r).1 = db)
    ∧ (FeedIdsUnique db → (∃ fd ∈ db.feeds, fd.id = f ∧ fd.user_id = some uid) →
        (DeleteFeed HMAC jwtKey now db r).1.feeds = db.feeds.filter (fun g => decide (g.id ≠ f))
        ∧ (DeleteFeed HMAC jwtKey now db r).1.posts =
            db.posts.filter (fun p => decide (p.feed_id ≠ some f))
        ∧ (DeleteFeed HMAC jwtKey now db r).1.users = db.users) := by
  have hrun : DeleteFeed HMAC jwtKey now db r = (deleteFeedRows db f uid, statusOnly 200) := by
    unfold DeleteFeed
    simp only [hauth, huid, hid, hrange, if_true]
  rw [hrun]
  exact ⟨rfl, deleteFeedRows_noop db f uid, deleteFeedRows_owned db f uid⟩

/-- C8 (as stated, refuted): the feed id 3000000000 is accepted by `Atoi` and names no
stored feed, yet `DeleteFeed` called by the authenticated user `alice` answers 500, not
200; the store is unchanged. -/
theorem DeleteFeed_out_of_range_is_500 :
    GetUserFromToken exHMAC "secret" 0 (cookieRequest exToken "3000000000") = Except.ok "alice"
    ∧ GetUserID exDB "alice" = some 1
    ∧ Atoi "3000000000" = some 3000000000
    ∧ (∀ fd ∈ exDB.feeds, fd.id ≠ 3000000000)
    ∧ (DeleteFeed exHMAC "secret" 0 exDB (cookieRequest exToken "3000000000")).2.status = 500
    ∧ (DeleteFeed exHMAC "secret" 0 exDB (cookieRequest exToken "3000000000")).2.status ≠ 200
    ∧ (DeleteFeed exHMAC "secret" 0 exDB (cookieRequest exToken "3000000000")).1 = exDB :=
  ⟨rfl, by decide, by decide, by decide, by decide, by decide, by decide⟩

/-! ## handlers.go: empty results -/

/-- C9 (as the code behaves): for an authenticated user without posts `GetPosts` answers
200 with the body `null`, which is not the empty array; `GetFeeds` does the same for a user
without feeds. -/
theorem GetPosts_without_posts_writes_null
    (HMAC : String → String → Claims → String) (jwtKey : String) (now : Int)
    (tsString : Int → String) (db : DB) (r : Request) (username : String) (uid : Int)
    (hauth : GetUserFromToken HMAC jwtKey now r = Except.ok username)
    (huid : GetUserID db username = some uid)
    (hnone : userPosts db uid = []) :
    (GetPosts HMAC jwtKey now tsString db r).status = 200
    ∧ (GetPosts HMAC jwtKey now tsString db r).body = some JSON.null
    ∧ (GetPosts HMAC jwtKey now tsString db r).body ≠ some (JSON.arr [])
    ∧ ((db.feeds.filter fun g => decide (g.user_id = some uid)) = [] →
        (GetFeeds HMAC jwtKey now tsString db r).status = 200
        ∧ (GetFeeds HMAC jwtKey now tsString db r).body = some JSON.null) := by
  have hrows : recentPosts db uid = [] := by
    unfold recentPosts userPostsSorted
    rw [hnone]
    rfl
  have hbody : (GetPosts HMAC jwtKey now tsString db r).body = some JSON.null := by
    unfold GetPosts
    simp only [hauth, huid, hrows]
    rfl
  refine ⟨?_, hbody, ?_, ?_⟩
  · unfold GetPosts
    simp only [hauth, huid]
  · rw [hbody]
    simp
  · intro hfeeds
    unfold GetFeeds
    simp only [hauth, huid, hfeeds]
    exact ⟨trivial, rfl⟩

/-! ## handlers.go: the theorems on the concrete store -/

theorem GetPosts_returns_recent_posts_witness :
    GetUserFromToken exHMAC "secret" 0 (cookieRequest exToken "") = Except.ok "alice"
    ∧ GetUserID exPolled "alice" = some 1
    ∧ (GetPosts exHMAC "secret" 0 exTsString exPolled (cookieRequest exToken "")).status = 200
    ∧ (recentPosts exPolled 1).length ≤ 50
    ∧ (recentPosts exPolled 1).Pairwise publishedDesc
    ∧ recentPosts exPolled 1 <+: userPostsSorted exPolled 1
    ∧ (recentPosts exPolled 1).map PostsRow.published_at = [none, some 200, some 100] :=
  ⟨rfl, by decide,
   (GetPosts_returns_recent_posts exHMAC "secret" 0 exTsString exPolled
      (cookieRequest exToken "") "alice" 1 rfl (by decide)).1,
   (GetPosts_returns_recent_posts exHMAC "secret" 0 exTsString exPolled
      (cookieRequest exToken "") "alice" 1 rfl (by decide)).2.2.2.1,
   (GetPosts_returns_recent_posts exHMAC "secret" 0 exTsString exPolled
      (cookieRequest exToken "") "alice" 1 rfl (by decide)).2.2.2.2.2.1,
   (GetPosts_returns_recent_posts exHMAC "secret" 0 exTsString exPolled
      (cookieRequest exToken "") "alice" 1 rfl (by decide)).2.2.2.2.2.2.1,
   by decide⟩

theorem DeleteFeed_scoped_by_owner_witness :
    GetUserFromToken exHMAC "secret" 0 (cookieRequest exToken "1") = Except.ok "alice"
    ∧ GetUserID exDB "alice" = some 1
    ∧ Atoi "1" = some 1 ∧ Atoi "2" = some 2
    ∧ inInteger 1 ∧ inInteger 2
    ∧ FeedIdsUnique exDB
    ∧ (DeleteFeed exHMAC "secret" 0 exDB (cookieRequest exToken "2")).2 = statusOnly 200
    ∧ (DeleteFeed exHMAC "secret" 0 exDB (cookieRequest exToken "2")).1 = exDB
    ∧ (DeleteFeed exHMAC "secret" 0 exDB (cookieRequest exToken "1")).1.feeds =
        exDB.feeds.filter (fun g => decide (g.id ≠ 1))
    ∧ (DeleteFeed exHMAC "secret" 0 exDB (cookieRequest exToken "1")).1.posts = [] :=
  ⟨rfl, by decide, by decide, by decide, by decide, by decide,
   by unfold FeedIdsUnique; decide,
   (DeleteFeed_scoped_by_owner exHMAC "secret" 0 exDB (cookieRequest exToken "2") "alice" 1 2
      rfl (by decide) (by decide) (by decide)).1,
   (DeleteFeed_scoped_by_owner exHMAC "secret" 0 exDB (cookieRequest exToken "2") "alice" 1 2
      rfl (by decide) (by decide) (by decide)).2.1 (by decide),
   ((DeleteFeed_scoped_by_owner exHMAC "secret" 0 exDB (cookieRequest exToken "1") "alice" 1 1
      rfl (by decide) (by decide) (by decide)).2.2 (by unfold FeedIdsUnique; decide) (by decide)).1,
   ((DeleteFeed_scoped_by_owner exHMAC "secret" 0 exDB (cookieRequest exToken "1") "alice" 1 1
      rfl (by decide) (by decide) (by decide)).2.2 (by unfold FeedIdsUnique; decide) (by decide)).2.1⟩

theorem GetPosts_without_posts_writes_null_witness :
    GetUserFromToken exHMAC "secret" 0 (cookieRequest exToken "") = Except.ok "alice"
    ∧ GetUserID exFresh "alice" = some 1
    ∧ userPosts exFresh 1 = []
    ∧ (GetPosts exHMAC "secret" 0 exTsString exFresh (cookieRequest exToken "")).status = 200
    ∧ (GetPosts exHMAC "secret" 0 exTsString exFresh (cookieRequest exToken "")).body
        = some JSON.null
    ∧ (GetPosts exHMAC "secret" 0 exTsString exFresh (cookieRequest exToken "")).body
        ≠ some (JSON.arr [])
    ∧ (GetFeeds exHMAC "secret" 0 exTsString exNoFeeds (cookieRequest exToken "")).body
        = some JSON.null :=
  ⟨rfl, by decide, by decide,
   (GetPosts_without_posts_writes_null exHMAC "secret" 0 exTsString exFresh
      (cookieRequest exToken "") "alice" 1 rfl (by decide) (by decide)).1,
   (GetPosts_without_posts_writes_null exHMAC "secret" 0 exTsString exFresh
      (cookieRequest exToken "") "alice" 1 rfl (by decide) (by decide)).2.1,
   (GetPosts_without_posts_writes_null exHMAC "secret" 0 exTsString exFresh
      (cookieRequest exToken "") "alice" 1 rfl (by decide) (by decide)).2.2.1,
   ((GetPosts_without_posts_writes_null exHMAC "secret" 0 exTsString exNoFeeds
      (cookieRequest exToken "") "alice" 1 rfl (by decide) (by decide)).2.2.2 (by decide)).2⟩

end RSSAggregator
